import Mathlib

/-!
# Verification of the ctypeparser extraction core

A shallow embedding of `src/main.rs`: the clang AST is modelled as a tree of
entities exposing the queries the program performs (kind, optional name,
type display form, typedef underlying type, enum constant value, main-file
membership, definition link, children).  Rust `Option::unwrap` panics are
modelled by the `Option` monad (`none` = process abort), and libclang's
`clang_visitChildren` traversal is embedded with its documented
`Break`/`Continue`/`Recurse` semantics.
-/

namespace CTypeParser

/-- The output model of `main.rs` (struct `TypeDefType`). -/
structure TypeDefType where
  name : String
  underlying : String
deriving DecidableEq, Repr

/-- `struct StructField` from `main.rs`. -/
structure StructField where
  name : String
  type_ : String
deriving DecidableEq, Repr

/-- `struct StructType` from `main.rs`. -/
structure StructType where
  name : String
  fields : List StructField
deriving DecidableEq, Repr

/-- `struct EnumField` from `main.rs`; `value` is the `i64` constant. -/
structure EnumField where
  name : String
  value : Int
deriving DecidableEq, Repr

/-- `struct EnumType` from `main.rs`. -/
structure EnumType where
  name : String
  fields : List EnumField
deriving DecidableEq, Repr

/-- `struct UnionField` from `main.rs`. -/
structure UnionField where
  name : String
  type_ : String
deriving DecidableEq, Repr

/-- `struct UnionType` from `main.rs`. -/
structure UnionType where
  name : String
  fields : List UnionField
deriving DecidableEq, Repr

/-- `enum Types` from `main.rs`: the tagged union of emitted entries. -/
inductive Types where
  | TypeDefType : TypeDefType → Types
  | StructType : StructType → Types
  | EnumType : EnumType → Types
  | UnionType : UnionType → Types
deriving DecidableEq, Repr

/-- The `name` field common to all four entry variants. -/
def Types.entryName : Types → String
  | .TypeDefType t => t.name
  | .StructType s => s.name
  | .EnumType e => e.name
  | .UnionType u => u.name

/-- The clang entity kinds the program distinguishes (`EntityKind` in the
`clang` crate); every kind other than the four dispatched ones behaves
uniformly, but a few are named so that claims about child kinds can be
stated. -/
inductive EntityKind where
  | TypedefDecl
  | StructDecl
  | EnumDecl
  | UnionDecl
  | FieldDecl
  | EnumConstantDecl
  | Other
deriving DecidableEq, Repr

/-- A clang AST entity, exposing exactly the queries `main.rs` performs:
`get_kind`, `get_name`, `get_type().get_display_name()`,
`get_typedef_underlying_type().get_display_name()`,
`get_enum_constant_value()` (a signed/unsigned pair `(i64, u64)`),
`is_in_main_file`, `get_definition`, and `get_children`. -/
inductive Entity : Type where
  | mk :
      EntityKind → Option String → Option String → Option String →
      Option (Int × Nat) → Bool → Option Entity → List Entity → Entity

/-- `entity.get_kind()`. -/
def Entity.kind : Entity → EntityKind
  | .mk k _ _ _ _ _ _ _ => k

/-- `entity.get_name()` (an empty clang spelling is reported as `none`). -/
def Entity.name : Entity → Option String
  | .mk _ n _ _ _ _ _ _ => n

/-- `entity.get_type()` rendered with `get_display_name()`; `none` when
`get_type()` returns `None`. -/
def Entity.typeDisplay : Entity → Option String
  | .mk _ _ t _ _ _ _ _ => t

/-- `entity.get_typedef_underlying_type()` rendered with
`get_display_name()`; `none` when absent. -/
def Entity.typedefUnderlying : Entity → Option String
  | .mk _ _ _ u _ _ _ _ => u

/-- `entity.get_enum_constant_value()`: the signed `i64` value paired with
the unsigned `u64` companion. -/
def Entity.enumValue : Entity → Option (Int × Nat)
  | .mk _ _ _ _ v _ _ _ => v

/-- `entity.is_in_main_file()`. -/
def Entity.inMainFile : Entity → Bool
  | .mk _ _ _ _ _ m _ _ => m

/-- `entity.get_definition()`: the full definition node of a forward
declaration, when the translation unit contains one. -/
def Entity.definition : Entity → Option Entity
  | .mk _ _ _ _ _ _ d _ => d

/-- `entity.get_children()`. -/
def Entity.children : Entity → List Entity
  | .mk _ _ _ _ _ _ _ cs => cs

/-- `fn parse_typedef` (`main.rs:91-98`): unwraps the typedef's name and the
display form of its underlying type (either absence panics) and pushes one
`TypeDefType` entry. -/
def parse_typedef (entity : Entity) (types : List Types) : Option (List Types) := do
  let name ← entity.name
  let underlying ← entity.typedefUnderlying
  some (types ++ [Types.TypeDefType ⟨name, underlying⟩])

/-- `fn get_name` (`main.rs:100-111`): the node's own name; otherwise, when
the immediate parent is a typedef declaration, the parent's name; otherwise
`none`. -/
def get_name (entity parent : Entity) : Option String :=
  match entity.name with
  | some n => some n
  | none =>
    if parent.kind = EntityKind.TypedefDecl then
      parent.name
    else
      none

/-- The per-child closure of `parse_struct` (`main.rs:119-122`): unwraps the
child's name, then its type's display form (either absence panics). -/
def structField (field : Entity) : Option StructField := do
  let n ← field.name
  let t ← field.typeDisplay
  some (⟨n, t⟩ : StructField)

/-- `fn parse_struct` (`main.rs:113-127`): resolve a name via `get_name`;
when none, do nothing; when found, convert every child into a `StructField`
and push one `StructType` entry. -/
def parse_struct (entity parent : Entity) (types : List Types) : Option (List Types) :=
  match get_name entity parent with
  | none => some types
  | some name => do
    let fields ← entity.children.mapM structField
    some (types ++ [Types.StructType ⟨name, fields⟩])

/-- The per-child closure of `parse_enum` (`main.rs:135-143`): unwraps the
enum constant value first (taking the signed component and discarding the
unsigned companion), then the child's name. -/
def enumField (field : Entity) : Option EnumField := do
  let v ← field.enumValue
  let n ← field.name
  some (⟨n, v.1⟩ : EnumField)

/-- `fn parse_enum` (`main.rs:129-148`). -/
def parse_enum (entity parent : Entity) (types : List Types) : Option (List Types) :=
  match get_name entity parent with
  | none => some types
  | some name => do
    let fields ← entity.children.mapM enumField
    some (types ++ [Types.EnumType ⟨name, fields⟩])

/-- The per-child closure of `parse_union` (`main.rs:156-159`). -/
def unionField (field : Entity) : Option UnionField := do
  let n ← field.name
  let t ← field.typeDisplay
  some (⟨n, t⟩ : UnionField)

/-- `fn parse_union` (`main.rs:150-163`). -/
def parse_union (entity parent : Entity) (types : List Types) : Option (List Types) :=
  match get_name entity parent with
  | none => some types
  | some name => do
    let fields ← entity.children.mapM unionField
    some (types ++ [Types.UnionType ⟨name, fields⟩])

/-- `EntityVisitResult` from the `clang` crate (= `CXChildVisitResult`):
`Break` stops the traversal; `Continue` moves to the next sibling without
visiting the current node's children; `Recurse` visits the current node's
children before the next sibling. -/
inductive EntityVisitResult where
  | Break
  | Continue
  | Recurse
deriving DecidableEq, Repr

/-- A visitor callback: entity, parent, accumulated output; `none` models a
panic aborting the process. -/
abbrev Visitor := Entity → Entity → List Types → Option (EntityVisitResult × List Types)

mutual

/-- One step of `clang_visitChildren`: dispatch the callback on `e` (with
`parent`), then interpret its result.  Returns `(false, s)` when a `Break`
was issued (traversal stops), `(true, s)` otherwise. -/
def visitEntity (f : Visitor) (parent e : Entity) (s : List Types) :
    Option (Bool × List Types) := do
  let (r, s') ← f e parent s
  match r with
  | .Break => some (false, s')
  | .Continue => some (true, s')
  | .Recurse => visitList f e e.children s'
termination_by sizeOf e
decreasing_by
  cases e with
  | mk k n t u v m d cs => simp [Entity.children]

/-- Visit a sibling list left to right, stopping when a callback breaks. -/
def visitList (f : Visitor) (parent : Entity) (cs : List Entity) (s : List Types) :
    Option (Bool × List Types) :=
  match cs with
  | [] => some (true, s)
  | c :: rest => do
    let (cont, s') ← visitEntity f parent c s
    if cont then visitList f parent rest s' else some (false, s')
termination_by sizeOf cs

end

/-- The `match e.get_kind()` dispatch of `main` (`main.rs:76-82`): the four
declaration kinds go to their extractors, everything else is ignored. -/
def dispatch (e parent : Entity) (types : List Types) : Option (List Types) :=
  match e.kind with
  | .TypedefDecl => parse_typedef e types
  | .StructDecl => parse_struct e parent types
  | .EnumDecl => parse_enum e parent types
  | .UnionDecl => parse_union e parent types
  | _ => some types

/-- The closure passed to `visit_children` in `main` (`main.rs:67-84`):
substitute the definition node when one exists, skip nodes outside the main
file, dispatch the four declaration kinds, and always return `Continue`. -/
def mainCallback : Visitor := fun entity parent types =>
  let e := entity.definition.getD entity
  if e.inMainFile = false then
    some (.Continue, types)
  else
    (dispatch e parent types).map fun ts => (.Continue, ts)

/-- `main`'s extraction pass: `entity.visit_children(...)` starting from the
translation-unit root with an empty output vector; `clang_visitChildren`
visits the root's children with the root as initial parent.  `none` models
a process abort from a panicking `unwrap`. -/
def runExtraction (root : Entity) : Option (List Types) := do
  let (_, ts) ← visitList mainCallback root root.children []
  some ts

/-- Reference traversal for comparison with the spec: a flat left-to-right
pass over a list of sibling nodes that applies the main callback to each
sibling exactly once and never descends into a visited node's children. -/
def foldVisit (parent : Entity) (cs : List Entity) (s : List Types) : Option (List Types) :=
  match cs with
  | [] => some s
  | c :: rest => do
    let x ← mainCallback c parent s
    foldVisit parent rest x.2

/-- Replace an entity's kind, leaving every other observation unchanged. -/
def setKind (k : EntityKind) : Entity → Entity
  | .mk _ n t u v m d cs => .mk k n t u v m d cs

/-- Replace the kinds of an entity's immediate children. -/
def setChildKinds (k : EntityKind) : Entity → Entity
  | .mk k0 n t u v m d cs => .mk k0 n t u v m d (cs.map (setKind k))

/-- Replace the unsigned companion of an entity's enum constant value,
leaving the signed value and every other observation unchanged. -/
def withUnsigned (u : Nat) : Entity → Entity
  | .mk k n t ud v m d cs => .mk k n t ud (v.map fun p => (p.1, u)) m d cs

/-- Replace the unsigned companions of an entity's immediate children. -/
def mapChildrenUnsigned (u : Nat) : Entity → Entity
  | .mk k n t ud v m d cs => .mk k n t ud v m d (cs.map (withUnsigned u))

/-- An optional clang spelling is well formed when it is absent or a
non-empty string: `clang-rs` maps the empty spelling to `None`, so a
reported name is never the empty string. -/
def okName : Option String → Bool
  | some n => decide (n ≠ "")
  | none => true

/-- The AST Provider guarantee, restricted to the nodes whose names the
traversal consults for entry names: the root (it is the parent of every
visited node) and each visited child after definition substitution. -/
def visitedNamesOk (root : Entity) : Bool :=
  okName root.name &&
  root.children.all fun c => okName (c.definition.getD c).name

/-- The serde data model: the JSON values `serde_json` builds; text
rendering is the out-of-scope serialization facility. -/
inductive Json where
  | str : String → Json
  | int : Int → Json
  | arr : List Json → Json
  | obj : List (String × Json) → Json

/-- Serde encoding of `StructField` (all fields named, in order). -/
def encodeStructField (f : StructField) : Json :=
  .obj [("name", .str f.name), ("type_", .str f.type_)]

/-- Serde encoding of `EnumField`. -/
def encodeEnumField (f : EnumField) : Json :=
  .obj [("name", .str f.name), ("value", .int f.value)]

/-- Serde encoding of `UnionField`. -/
def encodeUnionField (f : UnionField) : Json :=
  .obj [("name", .str f.name), ("type_", .str f.type_)]

/-- Serde encoding of `enum Types`: externally tagged, the derived
`Serialize` layout. -/
def encodeEntry : Types → Json
  | .TypeDefType t =>
    .obj [("TypeDefType", .obj [("name", .str t.name), ("underlying", .str t.underlying)])]
  | .StructType s =>
    .obj [("StructType",
      .obj [("name", .str s.name), ("fields", .arr (s.fields.map encodeStructField))])]
  | .EnumType e =>
    .obj [("EnumType",
      .obj [("name", .str e.name), ("fields", .arr (e.fields.map encodeEnumField))])]
  | .UnionType u =>
    .obj [("UnionType",
      .obj [("name", .str u.name), ("fields", .arr (u.fields.map encodeUnionField))])]

/-- `serde_json::to_string(&types)` up to text rendering: the `Vec` becomes
a JSON array of tagged objects. -/
def encodeOutput (ts : List Types) : Json :=
  .arr (ts.map encodeEntry)

/-- The matching decoder for `StructField` (derived `Deserialize`). -/
def decodeStructField : Json → Option StructField
  | .obj [("name", .str n), ("type_", .str t)] => some (⟨n, t⟩ : StructField)
  | _ => none

/-- The matching decoder for `EnumField`. -/
def decodeEnumField : Json → Option EnumField
  | .obj [("name", .str n), ("value", .int v)] => some (⟨n, v⟩ : EnumField)
  | _ => none

/-- The matching decoder for `UnionField`. -/
def decodeUnionField : Json → Option UnionField
  | .obj [("name", .str n), ("type_", .str t)] => some (⟨n, t⟩ : UnionField)
  | _ => none

/-- The matching decoder for `enum Types` (derived `Deserialize`,
externally tagged). -/
def decodeEntry : Json → Option Types
  | .obj [("TypeDefType", .obj [("name", .str n), ("underlying", .str u)])] =>
    some (.TypeDefType ⟨n, u⟩)
  | .obj [("StructType", .obj [("name", .str n), ("fields", .arr fs)])] =>
    (fs.mapM decodeStructField).map fun l => .StructType ⟨n, l⟩
  | .obj [("EnumType", .obj [("name", .str n), ("fields", .arr fs)])] =>
    (fs.mapM decodeEnumField).map fun l => .EnumType ⟨n, l⟩
  | .obj [("UnionType", .obj [("name", .str n), ("fields", .arr fs)])] =>
    (fs.mapM decodeUnionField).map fun l => .UnionType ⟨n, l⟩
  | _ => none

/-- `serde_json::from_str::<Vec<Types>>` up to text parsing. -/
def decodeOutput : Json → Option (List Types)
  | .arr js => js.mapM decodeEntry
  | _ => none

/-! Concrete trees used to exercise the claims: the field `int x;`, a
forward-declared and later defined `struct Foo`, a struct nested below a
non-dispatched container, a `typedef struct { ... } Point;` pair, an enum
with a negative constant, a header-located node, and a struct with a
contract-violating unnamed field. -/

/-- `int x;` field declaration in the main file. -/
def fieldX : Entity := .mk .FieldDecl (some "x") (some "int") none none true none []

/-- `struct Foo { int x; };` definition node. -/
def fooDef : Entity := .mk .StructDecl (some "Foo") none none none true none [fieldX]

/-- `struct Foo;` forward declaration linked to the later definition. -/
def fooFwd : Entity := .mk .StructDecl (some "Foo") none none none true (some fooDef) []

/-- Translation unit holding the forward declaration and the definition. -/
def tuFwd : Entity := .mk .Other none none none none true none [fooFwd, fooDef]

/-- `struct Inner { int x; };` sitting one level below the top. -/
def innerStruct : Entity := .mk .StructDecl (some "Inner") none none none true none [fieldX]

/-- A non-dispatched container node holding a nested struct declaration. -/
def container : Entity := .mk .Other none none none none true none [innerStruct]

/-- Translation unit whose only struct sits below the container. -/
def tuNested : Entity := .mk .Other none none none none true none [container]

/-- `typedef struct { int x; } Point;` typedef node. -/
def tdPoint : Entity := .mk .TypedefDecl (some "Point") none (some "Point") none true none []

/-- Translation unit holding just the typedef node. -/
def tuTypedef : Entity := .mk .Other none none none none true none [tdPoint]

/-- Anonymous `struct { int x; }` declaration node. -/
def anonStruct : Entity := .mk .StructDecl none none none none true none [fieldX]

/-- Enum constant `RED` with signed/unsigned value pair `(0, 0)`. -/
def redConst : Entity := .mk .EnumConstantDecl (some "RED") none none (some (0, 0)) true none []

/-- Enum constant `NEG` with signed value `-1`; the unsigned companion is
the two's-complement reading `2^64 - 1`. -/
def negConst : Entity :=
  .mk .EnumConstantDecl (some "NEG") none none (some (-1, 18446744073709551615)) true none []

/-- `enum Color { RED, NEG };`-style enum node. -/
def colorEnum : Entity := .mk .EnumDecl (some "Color") none none none true none [redConst, negConst]

/-- A struct declaration located in an included header, not the main file. -/
def headerNode : Entity := .mk .StructDecl (some "HeaderS") none none none false none []

/-- A field declaration whose name is missing, violating the provider
contract. -/
def badField : Entity := .mk .FieldDecl none (some "int") none none true none []

/-- A named struct with a contract-violating unnamed field. -/
def badStruct : Entity := .mk .StructDecl (some "Bad") none none none true none [badField]

/-- A named nested struct declaration appearing among a struct's children;
it carries a type display form like any entity. -/
def innerDecl : Entity := .mk .StructDecl (some "In") (some "struct In") none none true none []

/-- A struct whose children mix a field and a nested struct declaration. -/
def mixedStruct : Entity := .mk .StructDecl (some "Mixed") none none none true none [fieldX, innerDecl]

/-! General lemmas about the traversal. -/

/-- The main callback never answers `Break` or `Recurse`. -/
theorem mainCallback_continue (entity parent : Entity) (ts : List Types)
    (r : EntityVisitResult) (s : List Types)
    (h : mainCallback entity parent ts = some (r, s)) : r = EntityVisitResult.Continue := by
  simp only [mainCallback] at h
  split at h
  · simp only [Option.some.injEq, Prod.mk.injEq] at h
    exact h.1.symm
  · simp only [Option.map_eq_some'] at h
    obtain ⟨a, -, ha⟩ := h
    simpa using congrArg Prod.fst ha.symm

/-- With the main callback, a single visit step never recurses: it is the
callback's own effect with the continue flag set. -/
theorem visitEntity_mainCallback (parent c : Entity) (s : List Types) :
    visitEntity mainCallback parent c s
      = (mainCallback c parent s).map fun x => (true, x.2) := by
  unfold visitEntity
  cases h : mainCallback c parent s with
  | none => simp
  | some x =>
    obtain ⟨r, s'⟩ := x
    have hr := mainCallback_continue c parent s r s' h
    subst hr
    simp

/-- With the main callback, visiting a sibling list is the flat fold over
that list, and the traversal is never broken. -/
theorem visitList_mainCallback (parent : Entity) (cs : List Entity) (s : List Types) :
    visitList mainCallback parent cs s
      = (foldVisit parent cs s).map fun ts => (true, ts) := by
  induction cs generalizing s with
  | nil => simp [visitList, foldVisit]
  | cons c rest ih =>
    rw [visitList, foldVisit]
    rw [visitEntity_mainCallback]
    cases h : mainCallback c parent s with
    | none => simp
    | some x => simp [ih]

/-- The whole extraction is the flat fold over the root's children. -/
theorem runExtraction_eq_foldVisit (root : Entity) :
    runExtraction root = foldVisit root root.children [] := by
  unfold runExtraction
  rw [visitList_mainCallback]
  cases h : foldVisit root root.children [] <;> simp

/-- C2 counterexample: the named struct `Inner` sits in the main file one
level below a non-dispatched container, yet the whole run emits nothing,
although dispatching `Inner` directly would emit its entry — so children of
non-matching nodes are not visited. -/
theorem traversal_skips_nested_nodes_cex :
    runExtraction tuNested = some [] ∧
    parse_struct innerStruct container []
      = some [Types.StructType ⟨"Inner", [⟨"x", "int"⟩]⟩] := by
  constructor
  · rw [runExtraction_eq_foldVisit]
    rfl
  · rfl

/-- C2 (amended): the traversal applies the callback to exactly the root's
immediate children, left to right, and never stops early (the continue flag
stays `true`, i.e. the callback never answers `Break`); but because the
callback always answers `Continue`, which skips child entities, it never
descends below the root's immediate children. -/
theorem traversal_flat_fold_no_break (root : Entity) :
    runExtraction root = foldVisit root root.children [] ∧
    ∀ parent cs s, visitList mainCallback parent cs s
      = (foldVisit parent cs s).map fun ts => (true, ts) :=
  ⟨runExtraction_eq_foldVisit root, fun parent cs s => visitList_mainCallback parent cs s⟩

/-- C7: a visited node whose definition-substituted location is outside the
main file contributes nothing: the callback continues with the output
sequence unchanged. -/
theorem file_membership_filter (entity parent : Entity) (ts : List Types)
    (h : (entity.definition.getD entity).inMainFile = false) :
    mainCallback entity parent ts = some (EntityVisitResult.Continue, ts) := by
  simp [mainCallback, h]

/-- C7 witness: a header-located struct declaration appends nothing. -/
theorem file_membership_filter_witness :
    mainCallback headerNode container [] = some (EntityVisitResult.Continue, []) :=
  file_membership_filter headerNode container [] rfl

/-- C1 counterexample: `struct Foo;` followed by `struct Foo { int x; };`
puts both declaration nodes at the top of the translation unit; the run
emits one entry per visited declaration, so `Foo` appears twice (both times
with the definition's member list), not exactly once. -/
theorem forward_decl_duplicate_entries_cex :
    runExtraction tuFwd
      = some [Types.StructType ⟨"Foo", [⟨"x", "int"⟩]⟩,
              Types.StructType ⟨"Foo", [⟨"x", "int"⟩]⟩] ∧
    ((runExtraction tuFwd).getD []).length ≠ 1 := by
  have h : runExtraction tuFwd
      = some [Types.StructType ⟨"Foo", [⟨"x", "int"⟩]⟩,
              Types.StructType ⟨"Foo", [⟨"x", "int"⟩]⟩] := by
    rw [runExtraction_eq_foldVisit]
    rfl
  exact ⟨h, by rw [h]; decide⟩

/-- C1 (amended): when a forward declaration links to its definition node,
the traversal substitutes the definition, so visiting the forward
declaration behaves exactly like visiting the definition; in particular a
struct definition's entry carries the full member list of the definition's
children — never the forward declaration's empty child list — but each
visited declaration of the type emits its own entry. -/
theorem forward_decl_definition_substituted (fwd d parent : Entity) (ts : List Types)
    (h1 : fwd.definition = some d) (h2 : d.definition.getD d = d) :
    mainCallback fwd parent ts = mainCallback d parent ts ∧
    (∀ nm fs, d.inMainFile = true → d.kind = EntityKind.StructDecl →
      get_name d parent = some nm → d.children.mapM structField = some fs →
      mainCallback fwd parent ts
        = some (EntityVisitResult.Continue, ts ++ [Types.StructType ⟨nm, fs⟩])) := by
  have he : fwd.definition.getD fwd = d := by rw [h1]; rfl
  constructor
  · unfold mainCallback
    rw [he, h2]
  · intro nm fs hm hk hn hf
    unfold mainCallback
    rw [he]
    dsimp only
    rw [hm]
    simp only [Bool.true_eq_false, if_false]
    unfold dispatch
    rw [hk]
    unfold parse_struct
    rw [hn]
    dsimp only
    rw [hf]
    rfl

/-- C1 witness: visiting the forward declaration of `Foo` equals visiting
its definition and emits the entry with the definition's field list. -/
theorem forward_decl_definition_substituted_witness :
    mainCallback fooFwd tuFwd [] = mainCallback fooDef tuFwd [] ∧
    mainCallback fooFwd tuFwd []
      = some (EntityVisitResult.Continue, [Types.StructType ⟨"Foo", [⟨"x", "int"⟩]⟩]) := by
  refine ⟨(forward_decl_definition_substituted fooFwd fooDef tuFwd [] rfl rfl).1, ?_⟩
  have h := (forward_decl_definition_substituted fooFwd fooDef tuFwd [] rfl rfl).2
    "Foo" [⟨"x", "int"⟩] rfl rfl rfl rfl
  simpa using h

/-- C3: the shared name-resolution policy and its effect on emission: the
node's own name wins; an anonymous node under a typedef parent borrows the
parent's name; an anonymous node elsewhere resolves to no name; a node with
no resolved name makes all three aggregate extractors leave the output
untouched; and a resolved name is exactly the name of the single appended
entry. -/
theorem name_resolution_policy (entity parent : Entity) (ts : List Types) :
    (∀ n, entity.name = some n → get_name entity parent = some n) ∧
    (entity.name = none → parent.kind = EntityKind.TypedefDecl →
      get_name entity parent = parent.name) ∧
    (entity.name = none → parent.kind ≠ EntityKind.TypedefDecl →
      get_name entity parent = none) ∧
    (get_name entity parent = none →
      parse_struct entity parent ts = some ts ∧
      parse_enum entity parent ts = some ts ∧
      parse_union entity parent ts = some ts) ∧
    (∀ nm ts', get_name entity parent = some nm →
      ((parse_struct entity parent ts = some ts' →
          ∃ fs, ts' = ts ++ [Types.StructType ⟨nm, fs⟩]) ∧
       (parse_enum entity parent ts = some ts' →
          ∃ fs, ts' = ts ++ [Types.EnumType ⟨nm, fs⟩]) ∧
       (parse_union entity parent ts = some ts' →
          ∃ fs, ts' = ts ++ [Types.UnionType ⟨nm, fs⟩]))) := by
  refine ⟨?_, ?_, ?_, ?_, ?_⟩
  · intro n h
    simp [get_name, h]
  · intro h hk
    simp [get_name, h, hk]
  · intro h hk
    simp [get_name, h, hk]
  · intro h
    refine ⟨?_, ?_, ?_⟩ <;> simp [parse_struct, parse_enum, parse_union, h]
  · intro nm ts' h
    refine ⟨?_, ?_, ?_⟩ <;> intro hp
    · unfold parse_struct at hp
      rw [h] at hp
      cases hfs : entity.children.mapM structField with
      | none => rw [hfs] at hp; simp at hp
      | some fs =>
        rw [hfs] at hp
        simp at hp
        exact ⟨fs, hp.symm⟩
    · unfold parse_enum at hp
      rw [h] at hp
      cases hfs : entity.children.mapM enumField with
      | none => rw [hfs] at hp; simp at hp
      | some fs =>
        rw [hfs] at hp
        simp at hp
        exact ⟨fs, hp.symm⟩
    · unfold parse_union at hp
      rw [h] at hp
      cases hfs : entity.children.mapM unionField with
      | none => rw [hfs] at hp; simp at hp
      | some fs =>
        rw [hfs] at hp
        simp at hp
        exact ⟨fs, hp.symm⟩

/-- C3 witness: the anonymous struct under `typedef ... Point;` borrows the
name `Point`; the same struct under a non-typedef parent resolves to no
name and is skipped. -/
theorem name_resolution_policy_witness :
    get_name anonStruct tdPoint = Entity.name tdPoint ∧
    get_name anonStruct container = none ∧
    parse_struct anonStruct container [] = some [] := by
  refine ⟨(name_resolution_policy anonStruct tdPoint []).2.1 rfl rfl,
    (name_resolution_policy anonStruct container []).2.2.1 rfl (by decide), ?_⟩
  exact ((name_resolution_policy anonStruct container []).2.2.2.1
    ((name_resolution_policy anonStruct container []).2.2.1 rfl (by decide))).1

/-- A struct/union child with no name makes its field conversion panic. -/
theorem structField_name_none (c : Entity) (h : c.name = none) : structField c = none := by
  simp [structField, h]

/-- A union child with no name makes its field conversion panic. -/
theorem unionField_name_none (c : Entity) (h : c.name = none) : unionField c = none := by
  simp [unionField, h]

/-- An enum child with no name makes its field conversion panic (either at
the value unwrap or at the name unwrap). -/
theorem enumField_name_none (c : Entity) (h : c.name = none) : enumField c = none := by
  cases hv : c.enumValue <;> simp [enumField, h, hv]

/-- `mapM` over `Option` fails when any element fails. -/
theorem mapM_eq_none_of_mem {α β : Type} (f : α → Option β) :
    ∀ l : List α, (∃ c ∈ l, f c = none) → l.mapM f = none := by
  intro l
  induction l with
  | nil =>
    rintro ⟨c, hc, -⟩
    cases hc
  | cons a l ih =>
    rintro ⟨c, hc, hfc⟩
    rw [List.mapM_cons]
    rcases List.mem_cons.mp hc with rfl | hmem
    · simp [hfc]
    · cases hfa : f a with
      | none => simp
      | some b =>
        rw [ih ⟨c, hmem, hfc⟩]
        rfl

/-- C6: failure semantics — a typedef with no name aborts the process; a
named struct/enum/union with an unnamed child (field or enumerator
constant) aborts the process; but a struct/enum/union declaration whose own
name cannot be resolved never aborts: the extractors return the output
sequence unchanged. -/
theorem missing_name_failure_semantics (entity parent : Entity) (ts : List Types) :
    (entity.name = none → parse_typedef entity ts = none) ∧
    (∀ nm, get_name entity parent = some nm →
      (∃ c ∈ entity.children, c.name = none) →
      parse_struct entity parent ts = none ∧
      parse_enum entity parent ts = none ∧
      parse_union entity parent ts = none) ∧
    (get_name entity parent = none →
      parse_struct entity parent ts = some ts ∧
      parse_enum entity parent ts = some ts ∧
      parse_union entity parent ts = some ts) := by
  refine ⟨?_, ?_, ?_⟩
  · intro h
    simp [parse_typedef, h]
  · rintro nm hnm ⟨c, hc, hcname⟩
    refine ⟨?_, ?_, ?_⟩
    · unfold parse_struct
      rw [hnm, mapM_eq_none_of_mem structField entity.children
        ⟨c, hc, structField_name_none c hcname⟩]
      rfl
    · unfold parse_enum
      rw [hnm, mapM_eq_none_of_mem enumField entity.children
        ⟨c, hc, enumField_name_none c hcname⟩]
      rfl
    · unfold parse_union
      rw [hnm, mapM_eq_none_of_mem unionField entity.children
        ⟨c, hc, unionField_name_none c hcname⟩]
      rfl
  · intro h
    refine ⟨?_, ?_, ?_⟩ <;> simp [parse_struct, parse_enum, parse_union, h]

/-- C6 witness: an unnamed anonymous typedef node aborts; `struct Bad` with
an unnamed field aborts; the anonymous unaliased struct is skipped without
aborting. -/
theorem missing_name_failure_semantics_witness :
    parse_typedef anonStruct [] = none ∧
    parse_struct badStruct container [] = none ∧
    parse_struct anonStruct container [] = some [] := by
  refine ⟨(missing_name_failure_semantics anonStruct container []).1 rfl, ?_, ?_⟩
  · exact ((missing_name_failure_semantics badStruct container []).2.1 "Bad" rfl
      ⟨badField, by simp [badStruct, Entity.children], rfl⟩).1
  · exact ((missing_name_failure_semantics anonStruct container []).2.2 rfl).1

/-- `mapM` only looks at the function's values on the list's elements. -/
theorem mapM_congr {α β : Type} {f g : α → Option β} :
    ∀ l : List α, (∀ a ∈ l, f a = g a) → l.mapM f = l.mapM g := by
  intro l
  induction l with
  | nil => intro _; rfl
  | cons a l ih =>
    intro h
    rw [List.mapM_cons, List.mapM_cons, h a (by simp), ih fun b hb => h b (by simp [hb])]

/-- `mapM` after `map` fuses into one `mapM`. -/
theorem mapM_map {α β γ : Type} (f : α → β) (g : β → Option γ) :
    ∀ l : List α, (l.map f).mapM g = l.mapM fun a => g (f a) := by
  intro l
  induction l with
  | nil => rfl
  | cons a l ih => rw [List.map_cons, List.mapM_cons, List.mapM_cons, ih]

/-- Rewriting the unsigned companions leaves an entity's name alone. -/
theorem mapChildrenUnsigned_name (u : Nat) (e : Entity) :
    (mapChildrenUnsigned u e).name = e.name := by
  cases e
  rfl

/-- The children after rewriting the unsigned companions. -/
theorem mapChildrenUnsigned_children (u : Nat) (e : Entity) :
    (mapChildrenUnsigned u e).children = e.children.map (withUnsigned u) := by
  cases e
  rfl

/-- Name resolution ignores the unsigned companions. -/
theorem get_name_mapChildrenUnsigned (u : Nat) (e parent : Entity) :
    get_name (mapChildrenUnsigned u e) parent = get_name e parent := by
  unfold get_name
  rw [mapChildrenUnsigned_name]

/-- The enum field conversion is insensitive to the unsigned companion. -/
theorem enumField_withUnsigned (c : Entity) (u u' : Nat) :
    enumField (withUnsigned u c) = enumField (withUnsigned u' c) := by
  cases c with
  | mk k n t ud v m d cs => cases v <;> rfl

/-- C5: enumerator constants are recorded with the provider's signed
constant value, and the whole enum extractor is unchanged when every
child's unsigned companion value is rewritten arbitrarily — the unsigned
companion is never used. -/
theorem enum_values_signed (entity parent : Entity) (ts : List Types) (u u' : Nat) :
    (∀ c s uu n, c.enumValue = some (s, uu) → c.name = some n →
      enumField c = some (⟨n, s⟩ : EnumField)) ∧
    parse_enum (mapChildrenUnsigned u entity) parent ts
      = parse_enum (mapChildrenUnsigned u' entity) parent ts := by
  constructor
  · intro c s uu n hv hn
    simp [enumField, hv, hn]
  · unfold parse_enum
    rw [get_name_mapChildrenUnsigned, get_name_mapChildrenUnsigned]
    cases hg : get_name entity parent with
    | none => rfl
    | some nm =>
      rw [mapChildrenUnsigned_children, mapChildrenUnsigned_children, mapM_map, mapM_map,
        mapM_congr entity.children fun a _ => enumField_withUnsigned a u u']

/-- C5 witness: `NEG` is recorded as `-1` from the signed component even
though its unsigned companion is `2^64 - 1`, and rewriting the companions
of `enum Color` changes nothing. -/
theorem enum_values_signed_witness :
    enumField negConst = some (⟨"NEG", -1⟩ : EnumField) ∧
    parse_enum (mapChildrenUnsigned 0 colorEnum) container []
      = parse_enum (mapChildrenUnsigned 7 colorEnum) container [] :=
  ⟨(enum_values_signed negConst container [] 0 7).1 negConst (-1) 18446744073709551615 "NEG"
      rfl rfl,
    (enum_values_signed colorEnum container [] 0 7).2⟩

/-- A successful typedef extraction appends exactly one entry. -/
theorem parse_typedef_shape (e : Entity) (ts ts' : List Types)
    (h : parse_typedef e ts = some ts') : ∃ x, ts' = ts ++ [x] := by
  unfold parse_typedef at h
  cases hn : e.name with
  | none => rw [hn] at h; simp at h
  | some n =>
    rw [hn] at h
    cases hu : e.typedefUnderlying with
    | none => rw [hu] at h; simp at h
    | some u0 =>
      rw [hu] at h
      simp at h
      exact ⟨Types.TypeDefType ⟨n, u0⟩, h.symm⟩

/-- A successful struct extraction appends zero or one entries. -/
theorem parse_struct_shape (e parent : Entity) (ts ts' : List Types)
    (h : parse_struct e parent ts = some ts') : ts' = ts ∨ ∃ x, ts' = ts ++ [x] := by
  unfold parse_struct at h
  cases hg : get_name e parent with
  | none => rw [hg] at h; exact Or.inl (Option.some.inj h).symm
  | some nm =>
    rw [hg] at h
    cases hf : e.children.mapM structField with
    | none => rw [hf] at h; simp at h
    | some fs =>
      rw [hf] at h
      simp at h
      exact Or.inr ⟨Types.StructType ⟨nm, fs⟩, h.symm⟩

/-- A successful enum extraction appends zero or one entries. -/
theorem parse_enum_shape (e parent : Entity) (ts ts' : List Types)
    (h : parse_enum e parent ts = some ts') : ts' = ts ∨ ∃ x, ts' = ts ++ [x] := by
  unfold parse_enum at h
  cases hg : get_name e parent with
  | none => rw [hg] at h; exact Or.inl (Option.some.inj h).symm
  | some nm =>
    rw [hg] at h
    cases hf : e.children.mapM enumField with
    | none => rw [hf] at h; simp at h
    | some fs =>
      rw [hf] at h
      simp at h
      exact Or.inr ⟨Types.EnumType ⟨nm, fs⟩, h.symm⟩

/-- A successful union extraction appends zero or one entries. -/
theorem parse_union_shape (e parent : Entity) (ts ts' : List Types)
    (h : parse_union e parent ts = some ts') : ts' = ts ∨ ∃ x, ts' = ts ++ [x] := by
  unfold parse_union at h
  cases hg : get_name e parent with
  | none => rw [hg] at h; exact Or.inl (Option.some.inj h).symm
  | some nm =>
    rw [hg] at h
    cases hf : e.children.mapM unionField with
    | none => rw [hf] at h; simp at h
    | some fs =>
      rw [hf] at h
      simp at h
      exact Or.inr ⟨Types.UnionType ⟨nm, fs⟩, h.symm⟩

/-- A successful dispatch appends zero or one entries. -/
theorem dispatch_shape (e parent : Entity) (ts ts' : List Types)
    (h : dispatch e parent ts = some ts') : ∃ new, ts' = ts ++ new ∧ new.length ≤ 1 := by
  have flat : ts' = ts ∨ (∃ x, ts' = ts ++ [x]) →
      ∃ new, ts' = ts ++ new ∧ new.length ≤ 1 := by
    rintro (rfl | ⟨x, rfl⟩)
    · exact ⟨[], by simp⟩
    · exact ⟨[x], rfl, by simp⟩
  unfold dispatch at h
  cases hk : e.kind <;> rw [hk] at h
  case TypedefDecl =>
    obtain ⟨x, hx⟩ := parse_typedef_shape e ts ts' h
    exact ⟨[x], hx, by simp⟩
  case StructDecl => exact flat (parse_struct_shape e parent ts ts' h)
  case EnumDecl => exact flat (parse_enum_shape e parent ts ts' h)
  case UnionDecl => exact flat (parse_union_shape e parent ts ts' h)
  all_goals exact flat (Or.inl (Option.some.inj h).symm)

/-- One visit step appends zero or one entries and keeps earlier ones. -/
theorem mainCallback_shape (entity parent : Entity) (ts : List Types)
    (r : EntityVisitResult) (ts' : List Types)
    (h : mainCallback entity parent ts = some (r, ts')) :
    ∃ new, ts' = ts ++ new ∧ new.length ≤ 1 := by
  simp only [mainCallback] at h
  split at h
  · simp only [Option.some.injEq, Prod.mk.injEq] at h
    exact ⟨[], h.2.symm.trans (by simp), by simp⟩
  · simp only [Option.map_eq_some'] at h
    obtain ⟨s, hs, heq⟩ := h
    have : s = ts' := by simpa using congrArg Prod.snd heq
    exact this ▸ dispatch_shape _ parent ts s hs

/-- C9: each visited node appends zero or one entries to the output
sequence; a type-alias declaration that succeeds appends exactly one; and
no extractor call modifies or removes entries already present — the prior
sequence is an unchanged initial segment of the result. -/
theorem append_only_frame (entity parent : Entity) (ts : List Types) :
    (∀ ts', parse_typedef entity ts = some ts' → ∃ x, ts' = ts ++ [x]) ∧
    (∀ ts', parse_struct entity parent ts = some ts' →
      ts' = ts ∨ ∃ x, ts' = ts ++ [x]) ∧
    (∀ ts', parse_enum entity parent ts = some ts' →
      ts' = ts ∨ ∃ x, ts' = ts ++ [x]) ∧
    (∀ ts', parse_union entity parent ts = some ts' →
      ts' = ts ∨ ∃ x, ts' = ts ++ [x]) ∧
    (∀ r ts', mainCallback entity parent ts = some (r, ts') →
      ∃ new, ts' = ts ++ new ∧ new.length ≤ 1) :=
  ⟨fun ts' => parse_typedef_shape entity ts ts',
   fun ts' => parse_struct_shape entity parent ts ts',
   fun ts' => parse_enum_shape entity parent ts ts',
   fun ts' => parse_union_shape entity parent ts ts',
   fun r ts' => mainCallback_shape entity parent ts r ts'⟩

/-- C9 witness: the typedef `Point` appends exactly one entry onto a
non-empty prior sequence, which stays an unchanged initial segment, and a
full visit step of `struct Foo` appends at most one entry. -/
theorem append_only_frame_witness :
    (∃ x, [Types.EnumType ⟨"Color", []⟩, Types.TypeDefType ⟨"Point", "Point"⟩]
      = [Types.EnumType ⟨"Color", []⟩] ++ [x]) ∧
    ∃ new, [Types.StructType ⟨"Foo", [⟨"x", "int"⟩]⟩] = ([] : List Types) ++ new ∧
      new.length ≤ 1 :=
  ⟨(append_only_frame tdPoint container [Types.EnumType ⟨"Color", []⟩]).1
      [Types.EnumType ⟨"Color", []⟩, Types.TypeDefType ⟨"Point", "Point"⟩] rfl,
   (append_only_frame fooDef tuFwd []).2.2.2.2 EntityVisitResult.Continue
      [Types.StructType ⟨"Foo", [⟨"x", "int"⟩]⟩] rfl⟩

/-- A successful `mapM` produces one output per input, in order. -/
theorem mapM_some_spec {α β : Type} (f : α → Option β) :
    ∀ (l : List α) (r : List β), l.mapM f = some r →
      r.length = l.length ∧
      ∀ i (h1 : i < l.length) (h2 : i < r.length),
        f (l.get ⟨i, h1⟩) = some (r.get ⟨i, h2⟩) := by
  intro l
  induction l with
  | nil =>
    intro r h
    have h' : some ([] : List β) = some r := h
    have hr : r = [] := (Option.some.inj h').symm
    subst hr
    exact ⟨rfl, fun i h1 => absurd h1 (Nat.not_lt_zero i)⟩
  | cons a l ih =>
    intro r h
    rw [List.mapM_cons] at h
    cases hfa : f a with
    | none => rw [hfa] at h; simp at h
    | some b =>
      rw [hfa] at h
      cases hml : l.mapM f with
      | none => rw [hml] at h; simp at h
      | some rest =>
        rw [hml] at h
        simp at h
        subst h
        obtain ⟨hlen, hpt⟩ := ih rest hml
        refine ⟨by simp [hlen], ?_⟩
        intro i h1 h2
        cases i with
        | zero => simpa using hfa
        | succ j =>
          exact hpt j (Nat.lt_of_succ_lt_succ h1) (Nat.lt_of_succ_lt_succ h2)

/-- The struct field conversion never consults the child's kind. -/
theorem structField_setKind (k : EntityKind) (c : Entity) :
    structField (setKind k c) = structField c := by
  cases c
  rfl

/-- The union field conversion never consults the child's kind. -/
theorem unionField_setKind (k : EntityKind) (c : Entity) :
    unionField (setKind k c) = unionField c := by
  cases c
  rfl

/-- Rewriting the children's kinds leaves the node's name alone. -/
theorem setChildKinds_name (k : EntityKind) (e : Entity) :
    (setChildKinds k e).name = e.name := by
  cases e
  rfl

/-- The children after rewriting their kinds. -/
theorem setChildKinds_children (k : EntityKind) (e : Entity) :
    (setChildKinds k e).children = e.children.map (setKind k) := by
  cases e
  rfl

/-- Name resolution ignores the children's kinds. -/
theorem get_name_setChildKinds (k : EntityKind) (e parent : Entity) :
    get_name (setChildKinds k e) parent = get_name e parent := by
  unfold get_name
  rw [setChildKinds_name]

/-- C10: a named struct or union converts every immediate child into a
field in child order with no filtering by the child's declaration kind —
rewriting all children's kinds changes nothing, each child yields exactly
one field at the same index, and an unnamed child aborts the process. -/
theorem children_recorded_as_fields (entity parent : Entity) (ts : List Types)
    (k : EntityKind) (nm : String) (hn : get_name entity parent = some nm) :
    (parse_struct (setChildKinds k entity) parent ts = parse_struct entity parent ts ∧
     parse_union (setChildKinds k entity) parent ts = parse_union entity parent ts) ∧
    ((∃ c ∈ entity.children, c.name = none) →
      parse_struct entity parent ts = none ∧ parse_union entity parent ts = none) ∧
    (∀ fs, entity.children.mapM structField = some fs →
      parse_struct entity parent ts = some (ts ++ [Types.StructType ⟨nm, fs⟩]) ∧
      fs.length = entity.children.length ∧
      ∀ i (h1 : i < entity.children.length) (h2 : i < fs.length),
        structField (entity.children.get ⟨i, h1⟩) = some (fs.get ⟨i, h2⟩)) ∧
    (∀ fs, entity.children.mapM unionField = some fs →
      parse_union entity parent ts = some (ts ++ [Types.UnionType ⟨nm, fs⟩]) ∧
      fs.length = entity.children.length ∧
      ∀ i (h1 : i < entity.children.length) (h2 : i < fs.length),
        unionField (entity.children.get ⟨i, h1⟩) = some (fs.get ⟨i, h2⟩)) := by
  refine ⟨⟨?_, ?_⟩, ?_, ?_, ?_⟩
  · unfold parse_struct
    rw [get_name_setChildKinds, setChildKinds_children, mapM_map,
      mapM_congr entity.children fun c _ => structField_setKind k c]
  · unfold parse_union
    rw [get_name_setChildKinds, setChildKinds_children, mapM_map,
      mapM_congr entity.children fun c _ => unionField_setKind k c]
  · rintro ⟨c, hc, hcname⟩
    constructor
    · unfold parse_struct
      rw [hn, mapM_eq_none_of_mem structField entity.children
        ⟨c, hc, structField_name_none c hcname⟩]
      rfl
    · unfold parse_union
      rw [hn, mapM_eq_none_of_mem unionField entity.children
        ⟨c, hc, unionField_name_none c hcname⟩]
      rfl
  · intro fs hf
    obtain ⟨hlen, hpt⟩ := mapM_some_spec structField entity.children fs hf
    refine ⟨?_, hlen, hpt⟩
    unfold parse_struct
    rw [hn]
    dsimp only
    rw [hf]
    rfl
  · intro fs hf
    obtain ⟨hlen, hpt⟩ := mapM_some_spec unionField entity.children fs hf
    refine ⟨?_, hlen, hpt⟩
    unfold parse_union
    rw [hn]
    dsimp only
    rw [hf]
    rfl

/-- C10 witness: `struct Mixed` holds a field and a nested named struct
declaration; both become fields, in order, and the field count equals the
child count. -/
theorem children_recorded_as_fields_witness :
    parse_struct mixedStruct container []
      = some [Types.StructType ⟨"Mixed", [⟨"x", "int"⟩, ⟨"In", "struct In"⟩]⟩] ∧
    ([⟨"x", "int"⟩, ⟨"In", "struct In"⟩] : List StructField).length
      = mixedStruct.children.length := by
  have h := (children_recorded_as_fields mixedStruct container [] EntityKind.FieldDecl
    "Mixed" rfl).2.2.1 [⟨"x", "int"⟩, ⟨"In", "struct In"⟩] rfl
  exact ⟨by simpa using h.1, h.2.1⟩

/-- Encoding each element and decoding it back restores the list. -/
theorem mapM_map_roundtrip {α β : Type} (f : α → β) (g : β → Option α)
    (h : ∀ a, g (f a) = some a) : ∀ l : List α, (l.map f).mapM g = some l := by
  intro l
  induction l with
  | nil => rfl
  | cons a l ih =>
    rw [List.map_cons, List.mapM_cons, h a, ih]
    rfl

/-- The struct field codec round-trips. -/
theorem decodeStructField_encode (f : StructField) :
    decodeStructField (encodeStructField f) = some f := rfl

/-- The enum field codec round-trips. -/
theorem decodeEnumField_encode (f : EnumField) :
    decodeEnumField (encodeEnumField f) = some f := rfl

/-- The union field codec round-trips. -/
theorem decodeUnionField_encode (f : UnionField) :
    decodeUnionField (encodeUnionField f) = some f := rfl

/-- The tagged entry codec round-trips. -/
theorem decodeEntry_encode (t : Types) : decodeEntry (encodeEntry t) = some t := by
  cases t with
  | TypeDefType t0 => rfl
  | StructType s0 =>
    show ((s0.fields.map encodeStructField).mapM decodeStructField).map _ = _
    rw [mapM_map_roundtrip encodeStructField decodeStructField decodeStructField_encode]
    rfl
  | EnumType e0 =>
    show ((e0.fields.map encodeEnumField).mapM decodeEnumField).map _ = _
    rw [mapM_map_roundtrip encodeEnumField decodeEnumField decodeEnumField_encode]
    rfl
  | UnionType u0 =>
    show ((u0.fields.map encodeUnionField).mapM decodeUnionField).map _ = _
    rw [mapM_map_roundtrip encodeUnionField decodeUnionField decodeUnionField_encode]
    rfl

/-- C8: serializing any sequence of type model entries and parsing it back
with the matching decoder reconstructs an equal sequence (structural
equality, order preserved). -/
theorem serialization_roundtrip (ts : List Types) :
    decodeOutput (encodeOutput ts) = some ts := by
  show (ts.map encodeEntry).mapM decodeEntry = some ts
  exact mapM_map_roundtrip encodeEntry decodeEntry decodeEntry_encode ts

/-- A resolved name is non-empty when the node's and parent's reported
names are well formed. -/
theorem get_name_ok (e parent : Entity) (he : okName e.name = true)
    (hp : okName parent.name = true) (nm : String)
    (h : get_name e parent = some nm) : nm ≠ "" := by
  unfold get_name at h
  cases hn : e.name with
  | some n =>
    rw [hn] at h
    cases Option.some.inj h
    rw [hn] at he
    simpa [okName] using he
  | none =>
    rw [hn] at h
    by_cases hk : parent.kind = EntityKind.TypedefDecl
    · rw [if_pos hk] at h
      cases hpn : parent.name with
      | none => rw [hpn] at h; cases h
      | some pn =>
        rw [hpn] at h
        cases Option.some.inj h
        rw [hpn] at hp
        simpa [okName] using hp
    · rw [if_neg hk] at h
      cases h

/-- Any entry a dispatch appends carries a non-empty name. -/
theorem dispatch_names (e parent : Entity) (ts ts' : List Types)
    (he : okName e.name = true) (hp : okName parent.name = true)
    (h : dispatch e parent ts = some ts') :
    ∀ x ∈ ts', x ∈ ts ∨ x.entryName ≠ "" := by
  unfold dispatch at h
  cases hk : e.kind <;> rw [hk] at h
  case TypedefDecl =>
    unfold parse_typedef at h
    cases hn : e.name with
    | none => rw [hn] at h; simp at h
    | some n =>
      rw [hn] at h
      cases hu : e.typedefUnderlying with
      | none => rw [hu] at h; simp at h
      | some u0 =>
        rw [hu] at h
        simp at h
        subst h
        intro x hx
        rcases List.mem_append.mp hx with hx | hx
        · exact Or.inl hx
        · right
          have hxe : x = Types.TypeDefType ⟨n, u0⟩ := by simpa using hx
          subst hxe
          rw [hn] at he
          simpa [Types.entryName, okName] using he
  case StructDecl =>
    unfold parse_struct at h
    cases hg : get_name e parent with
    | none =>
      rw [hg] at h
      cases Option.some.inj h
      intro x hx
      exact Or.inl hx
    | some nm =>
      rw [hg] at h
      have hnm : nm ≠ "" := get_name_ok e parent he hp nm hg
      cases hf : e.children.mapM structField with
      | none => rw [hf] at h; simp at h
      | some fs =>
        rw [hf] at h
        simp at h
        subst h
        intro x hx
        rcases List.mem_append.mp hx with hx | hx
        · exact Or.inl hx
        · right
          have hxe : x = Types.StructType ⟨nm, fs⟩ := by simpa using hx
          subst hxe
          simpa [Types.entryName] using hnm
  case EnumDecl =>
    unfold parse_enum at h
    cases hg : get_name e parent with
    | none =>
      rw [hg] at h
      cases Option.some.inj h
      intro x hx
      exact Or.inl hx
    | some nm =>
      rw [hg] at h
      have hnm : nm ≠ "" := get_name_ok e parent he hp nm hg
      cases hf : e.children.mapM enumField with
      | none => rw [hf] at h; simp at h
      | some fs =>
        rw [hf] at h
        simp at h
        subst h
        intro x hx
        rcases List.mem_append.mp hx with hx | hx
        · exact Or.inl hx
        · right
          have hxe : x = Types.EnumType ⟨nm, fs⟩ := by simpa using hx
          subst hxe
          simpa [Types.entryName] using hnm
  case UnionDecl =>
    unfold parse_union at h
    cases hg : get_name e parent with
    | none =>
      rw [hg] at h
      cases Option.some.inj h
      intro x hx
      exact Or.inl hx
    | some nm =>
      rw [hg] at h
      have hnm : nm ≠ "" := get_name_ok e parent he hp nm hg
      cases hf : e.children.mapM unionField with
      | none => rw [hf] at h; simp at h
      | some fs =>
        rw [hf] at h
        simp at h
        subst h
        intro x hx
        rcases List.mem_append.mp hx with hx | hx
        · exact Or.inl hx
        · right
          have hxe : x = Types.UnionType ⟨nm, fs⟩ := by simpa using hx
          subst hxe
          simpa [Types.entryName] using hnm
  all_goals
    cases Option.some.inj h
    intro x hx
    exact Or.inl hx

/-- Any entry a visit step appends carries a non-empty name. -/
theorem mainCallback_names (c parent : Entity) (s s' : List Types) (r : EntityVisitResult)
    (he : okName (c.definition.getD c).name = true) (hp : okName parent.name = true)
    (h : mainCallback c parent s = some (r, s')) :
    ∀ x ∈ s', x ∈ s ∨ x.entryName ≠ "" := by
  simp only [mainCallback] at h
  split at h
  · simp only [Option.some.injEq, Prod.mk.injEq] at h
    intro x hx
    exact Or.inl (h.2 ▸ hx)
  · simp only [Option.map_eq_some'] at h
    obtain ⟨ts0, hts0, heq⟩ := h
    have hs' : ts0 = s' := by simpa using congrArg Prod.snd heq
    subst hs'
    exact dispatch_names _ parent s ts0 he hp hts0

/-- Any entry the flat fold appends carries a non-empty name. -/
theorem foldVisit_names (parent : Entity) (hp : okName parent.name = true) :
    ∀ (cs : List Entity) (s out : List Types),
      (∀ c ∈ cs, okName (c.definition.getD c).name = true) →
      foldVisit parent cs s = some out →
      ∀ x ∈ out, x ∈ s ∨ x.entryName ≠ "" := by
  intro cs
  induction cs with
  | nil =>
    intro s out _ h x hx
    cases Option.some.inj h
    exact Or.inl hx
  | cons c rest ih =>
    intro s out hcs h x hx
    unfold foldVisit at h
    cases hm : mainCallback c parent s with
    | none => rw [hm] at h; simp at h
    | some y =>
      rw [hm] at h
      have h' : foldVisit parent rest y.2 = some out := h
      have step := mainCallback_names c parent s y.2 y.1 (hcs c (by simp)) hp hm
      rcases ih y.2 out (fun c0 hc0 => hcs c0 (by simp [hc0])) h' x hx with hx2 | hne
      · rcases step x hx2 with hx3 | hne
        · exact Or.inl hx3
        · exact Or.inr hne
      · exact Or.inr hne

/-- C4: every entry in the output sequence has a non-empty name, provided
the AST Provider's reported names (for the root and every visited node
after definition substitution) are well formed — unnameable declarations
are dropped, never emitted with an empty name. -/
theorem entry_names_nonempty (root : Entity) (out : List Types)
    (hwf : visitedNamesOk root = true) (hrun : runExtraction root = some out) :
    ∀ t ∈ out, t.entryName ≠ "" := by
  rw [runExtraction_eq_foldVisit] at hrun
  unfold visitedNamesOk at hwf
  simp only [Bool.and_eq_true, List.all_eq_true] at hwf
  obtain ⟨h1, h2⟩ := hwf
  intro t ht
  rcases foldVisit_names root h1 root.children [] out (fun c hc => h2 c hc) hrun t ht
    with hmem | hne
  · cases hmem
  · exact hne

/-- C4 witness: the single entry the typedef-only unit emits has the
non-empty name `Point`. -/
theorem entry_names_nonempty_witness :
    Types.entryName (Types.TypeDefType ⟨"Point", "Point"⟩) ≠ "" := by
  have hrun : runExtraction tuTypedef = some [Types.TypeDefType ⟨"Point", "Point"⟩] := by
    rw [runExtraction_eq_foldVisit]
    rfl
  exact entry_names_nonempty tuTypedef [Types.TypeDefType ⟨"Point", "Point"⟩] rfl hrun
    (Types.TypeDefType ⟨"Point", "Point"⟩) (by simp)

end CTypeParser
